import Mathlib

/-!
Verification of the `chrono_avif` batch image converter (src/src/main.rs).

The program recursively scans a directory for images, resolves a capture
timestamp for each (EXIF `DateTimeOriginal`, falling back to filesystem
creation/modification time), allocates a collision-free output name of the
form `YYYY年MM月DD日 HH-MM-SS.avif`, transcodes the image to AVIF at a fixed
quality/speed operating point, deletes the original on success, and
aggregates per-file outcomes with shared counters.

This file gives a shallow embedding of that pipeline: pure Rust functions
become Lean functions, filesystem and EXIF access become explicit inputs
(`Option`/`Except` values and existence predicates), and the per-file
pipeline threads an explicit effect record.  Timezone resolution
(`chrono::Local::from_local_datetime(..).single()`) depends on the host
timezone database, so it is passed in as a function parameter `localize`.
-/

namespace ChronoAvif

/-- Error taxonomy of the pipeline, mirroring the `anyhow` error messages
produced at each failure site of `main.rs`. -/
inductive Err where
  /-- "无法获取文件目录": `image_path.parent()` returned `None`. -/
  | noParent
  /-- "无法读取文件" / "无法解析 EXIF 数据": reading or parsing the EXIF container failed. -/
  | exifUnavailable
  /-- "EXIF 中未找到 DateTimeOriginal": no entry with that tag parsed. -/
  | noDateTimeOriginal
  /-- "无效的时区转换": `from_local_datetime(..).single()` was `None`. -/
  | invalidZone
  /-- "无法读取文件元数据": `fs::metadata` failed. -/
  | metadataUnavailable
  /-- "无法获取文件时间": neither creation nor modification time available. -/
  | timestampUnavailable
  /-- "文件名冲突过多，无法生成唯一文件名": 10000 collision probes exhausted. -/
  | namingExhausted
  /-- "无法打开图片文件" / "无法解码图片": the decode stage failed. -/
  | decodeFailure
  /-- "AVIF 编码失败": the encode stage failed. -/
  | encodeFailure
  /-- "无法写入输出文件": `fs::write` of the encoded bytes failed. -/
  | writeFailure
  /-- "无法删除原文件": `fs::remove_file` of the original failed. -/
  | deleteFailure
deriving DecidableEq, Repr

/-- A naive wall-clock datetime, the Lean counterpart of
`chrono::NaiveDateTime` restricted to second precision (all the program
uses). -/
structure NaiveDT where
  year : Nat
  month : Nat
  day : Nat
  hour : Nat
  minute : Nat
  second : Nat
deriving DecidableEq, Repr

/-- A timezone-resolved instant (`chrono::DateTime<Local>`).  Only the local
wall-clock components matter to the program (they feed the filename
formatter), so the embedding records exactly those. -/
structure ZonedDT where
  wall : NaiveDT
deriving DecidableEq, Repr

/-- EXIF tags, collapsed to the only tag the program inspects plus an
opaque remainder (`rexif::ExifTag`). -/
inductive ExifTag where
  | dateTimeOriginal
  | otherTag (code : Nat)
deriving DecidableEq, Repr

/-- One EXIF entry as the program sees it: a tag and its
`value_more_readable` rendering. -/
structure ExifEntry where
  tag : ExifTag
  value_more_readable : String
deriving DecidableEq, Repr

/-! ### The `chrono` parser model

`NaiveDateTime::parse_from_str(s, "%Y:%m:%d %H:%M:%S")` succeeds exactly
when the whole string matches the fixed pattern and the fields form a valid
calendar datetime.  We model EXIF's standard 4-digit year rendering. -/

/-- Decimal value of an ASCII digit, `none` on any other character. -/
def digitVal (c : Char) : Option Nat :=
  if c.isDigit then some (c.toNat - 48) else none

/-- Two-digit field of the pattern. -/
def twoDigits (a b : Char) : Option Nat := do
  let x ← digitVal a
  let y ← digitVal b
  pure (10 * x + y)

/-- Four-digit field of the pattern. -/
def fourDigits (a b c d : Char) : Option Nat := do
  let x ← twoDigits a b
  let y ← twoDigits c d
  pure (100 * x + y)

/-- Gregorian leap-year test, as `chrono` validates dates. -/
def isLeapYear (y : Nat) : Bool :=
  (y % 4 == 0 && y % 100 != 0) || y % 400 == 0

/-- Days in a month of a given year. -/
def daysInMonth (y m : Nat) : Nat :=
  if m == 2 then (if isLeapYear y then 29 else 28)
  else if m == 4 || m == 6 || m == 9 || m == 11 then 30
  else 31

/-- Field validation performed by `chrono` when assembling a
`NaiveDateTime` from parsed fields. -/
def validDT (dt : NaiveDT) : Bool :=
  1 ≤ dt.month && dt.month ≤ 12 &&
  1 ≤ dt.day && dt.day ≤ daysInMonth dt.year dt.month &&
  dt.hour ≤ 23 && dt.minute ≤ 59 && dt.second ≤ 59

/-- `NaiveDateTime::parse_from_str(s, "%Y:%m:%d %H:%M:%S")` on the
character list of `s`: the shape `DDDD:DD:DD DD:DD:DD` with valid fields,
consuming the entire input. -/
def parseExifChars : List Char → Option NaiveDT
  | [y1, y2, y3, y4, c1, m1, m2, c2, d1, d2, sp, h1, h2, c3, i1, i2, c4, s1, s2] => do
    if c1 = ':' ∧ c2 = ':' ∧ sp = ' ' ∧ c3 = ':' ∧ c4 = ':' then
      let y ← fourDigits y1 y2 y3 y4
      let mo ← twoDigits m1 m2
      let d ← twoDigits d1 d2
      let h ← twoDigits h1 h2
      let mi ← twoDigits i1 i2
      let s ← twoDigits s1 s2
      let dt : NaiveDT := ⟨y, mo, d, h, mi, s⟩
      if validDT dt then pure dt else none
    else none
  | _ => none

/-- `NaiveDateTime::parse_from_str(&datetime_str, "%Y:%m:%d %H:%M:%S")`. -/
def parse_exif_datetime (s : String) : Option NaiveDT :=
  parseExifChars s.data

/-! ### TimestampResolver (`get_exif_datetime`, `get_image_datetime`)

`localize` stands for `Local.from_local_datetime(&naive).single()`: it
returns `some` exactly when the local-time interpretation of the naive
datetime is unambiguous in the host timezone. -/

/-- The entry loop of `get_exif_datetime`: scan entries in order; at the
first `DateTimeOriginal` entry whose value parses under the fixed pattern,
resolve it in the local timezone (an ambiguous/invalid zoning is an
immediate error, via the `?` inside the `return`); entries that do not
parse are skipped; if no entry yields a parse, fail with
`noDateTimeOriginal`. -/
def findExifDatetime (localize : NaiveDT → Option ZonedDT) :
    List ExifEntry → Except Err ZonedDT
  | [] => .error .noDateTimeOriginal
  | e :: rest =>
    if e.tag = .dateTimeOriginal then
      match parse_exif_datetime e.value_more_readable with
      | some ndt =>
        match localize ndt with
        | some z => .ok z
        | none => .error .invalidZone
      | none => findExifDatetime localize rest
    else findExifDatetime localize rest

/-- `get_exif_datetime`: read the file and parse its EXIF container
(`entries = none` models failure of either), then scan the entries.  -/
def get_exif_datetime (localize : NaiveDT → Option ZonedDT)
    (entries : Option (List ExifEntry)) : Except Err ZonedDT :=
  match entries with
  | none => .error .exifUnavailable
  | some es => findExifDatetime localize es

/-- Filesystem metadata of a file as the program consumes it:
`metadata.created()` and `metadata.modified()`, each of which may be
unavailable.  `SystemTime → DateTime<Local>` conversion is total, so the
fields already carry zoned instants. -/
structure FsMeta where
  created : Option ZonedDT
  modified : Option ZonedDT
deriving DecidableEq, Repr

/-- `get_image_datetime`: EXIF first; on any EXIF failure fall back to
`fs::metadata` (`meta = none` models its failure), preferring creation
time over modification time.  The second component records whether the
filesystem was consulted at all. -/
def get_image_datetime (localize : NaiveDT → Option ZonedDT)
    (entries : Option (List ExifEntry)) (meta : Option FsMeta) :
    Except Err ZonedDT × Bool :=
  match get_exif_datetime localize entries with
  | .ok dt => (.ok dt, false)
  | .error _ =>
    match meta with
    | none => (.error .metadataUnavailable, true)
    | some m =>
      match m.created with
      | some t => (.ok t, true)
      | none =>
        match m.modified with
        | some t => (.ok t, true)
        | none => (.error .timestampUnavailable, true)

/-! ### Filename formatting (`datetime.format("%Y年%m月%d日 %H-%M-%S")`) -/

/-- Zero-pad a numeral to two digits, as `chrono`'s `%m`/`%d`/`%H`/`%M`/`%S`. -/
def pad2 (n : Nat) : String :=
  if n < 10 then "0" ++ Nat.repr n else Nat.repr n

/-- Zero-pad a year to four digits, as `chrono`'s `%Y`. -/
def pad4 (n : Nat) : String :=
  if n < 10 then "000" ++ Nat.repr n
  else if n < 100 then "00" ++ Nat.repr n
  else if n < 1000 then "0" ++ Nat.repr n
  else Nat.repr n

/-- `datetime.format("%Y年%m月%d日 %H-%M-%S").to_string()`. -/
def format_time (z : ZonedDT) : String :=
  pad4 z.wall.year ++ "年" ++ pad2 z.wall.month ++ "月" ++ pad2 z.wall.day ++
  "日 " ++ pad2 z.wall.hour ++ "-" ++ pad2 z.wall.minute ++ "-" ++ pad2 z.wall.second

/-- `format!("\x7b\x7d.avif", formatted_time)`: the base output filename. -/
def base_filename_of (z : ZonedDT) : String :=
  format_time z ++ ".avif"

/-! ### NameAllocator (`generate_unique_filename`) -/

/-- Rust's `str::rsplit_once(sep)` on a character list: split at the last
occurrence of `sep`, `none` when absent. -/
def rsplitOnce (sep : Char) : List Char → Option (List Char × List Char)
  | [] => none
  | c :: cs =>
    match rsplitOnce sep cs with
    | some (l, r) => some (c :: l, r)
    | none => if c = sep then some ([], cs) else none

/-- `base_filename.rsplit_once('.').unwrap_or((base_filename, ""))`, keeping
only the part before the last dot (the program discards the extension). -/
def name_without_ext (base : String) : String :=
  match rsplitOnce '.' base.data with
  | some (l, _) => ⟨l⟩
  | none => base

/-- `format!("\x7b\x7d(\x7b\x7d).avif", name_without_ext, counter)`: the
suffixed collision candidate. -/
def suffixed (base : String) (counter : Nat) : String :=
  name_without_ext base ++ "(" ++ Nat.repr counter ++ ").avif"

/-- The collision-probe loop of `generate_unique_filename`.  The source
increments `counter` starting from 1 and errors once `counter > 10000`, so
exactly 10000 suffixed candidates are probed; `fuel` counts the probes that
remain.  `ex` is the filesystem existence check `parent_dir.join(..).exists()`. -/
def probe_loop (ex : String → Bool) (base : String) :
    Nat → Nat → Except Err String
  | _, 0 => .error .namingExhausted
  | counter, fuel + 1 =>
    let candidate := suffixed base counter
    if ex candidate then probe_loop ex base (counter + 1) fuel
    else .ok candidate

/-- `generate_unique_filename`: return the base name when free, otherwise
probe `(1)`, `(2)`, … up to 10000 attempts. -/
def generate_unique_filename (ex : String → Bool) (base_filename : String) :
    Except Err String :=
  if ex base_filename then probe_loop ex base_filename 1 10000
  else .ok base_filename

/-! ### Transcoder (`convert_to_avif`) -/

/-- `ravif::RGBA8`: one 4-byte pixel (each component one byte). -/
structure RGBA8 where
  r : Nat
  g : Nat
  b : Nat
  a : Nat
deriving DecidableEq, Repr

/-- The reinterpretation
`slice::from_raw_parts(pixels_u8.as_ptr() as *const RGBA8, pixels_u8.len() / 4)`:
read the byte buffer as consecutive 4-byte pixels, `len / 4` of them (any
trailing remainder under 4 bytes is not part of a pixel). -/
def bytesToPixels : List Nat → List RGBA8
  | r :: g :: b :: a :: rest => ⟨r, g, b, a⟩ :: bytesToPixels rest
  | _ => []

/-- The `ravif::Encoder` configuration: quality and speed, unset until the
corresponding builder call. -/
structure Encoder where
  quality : Option ℚ
  speed : Option Nat
deriving DecidableEq, Repr

/-- `Encoder::new()`. -/
def Encoder.new : Encoder := ⟨none, none⟩

/-- `Encoder::with_quality`. -/
def Encoder.with_quality (e : Encoder) (q : ℚ) : Encoder := { e with quality := some q }

/-- `Encoder::with_speed`. -/
def Encoder.with_speed (e : Encoder) (s : Nat) : Encoder := { e with speed := some s }

/-- Pixel layouts an image can be converted to; the program always calls
`DynamicImage::to_rgba8()`. -/
inductive PixelLayout where
  | rgba8
  | otherLayout (code : Nat)
deriving DecidableEq, Repr

/-- The encoding plan `convert_to_avif` assembles for an input before
invoking `encode_rgba`: the layout the decoded image is converted to and
the encoder configuration.  It is built the same way for every input. -/
structure EncodePlan where
  layout : PixelLayout
  encoder : Encoder
deriving DecidableEq, Repr

/-- The plan of `convert_to_avif`: convert to RGBA8, encode with
`Encoder::new().with_quality(80.0).with_speed(6)`. -/
def convert_plan : EncodePlan :=
  { layout := .rgba8,
    encoder := (Encoder.new.with_quality 80).with_speed 6 }

/-! ### Orchestrator (`process_image`, `main`)

Each per-file pipeline consumes an environment describing everything the
outside world hands that file: its parent directory, its EXIF entries and
filesystem metadata, the set of names already present in its directory, and
the outcomes of the decode/encode/write step and of the delete step.  The
pipeline produces a result plus an explicit effect record. -/

/-- The external inputs of one file's pipeline. -/
structure FileEnv where
  /-- `image_path.parent()`: the containing directory, when it exists. -/
  parent : Option String
  /-- EXIF entries of the file, `none` when reading/parsing the container fails. -/
  entries : Option (List ExifEntry)
  /-- Filesystem metadata, `none` when `fs::metadata` fails. -/
  meta : Option FsMeta
  /-- Names already present in the parent directory (the `exists()` probes). -/
  existing : List String
  /-- Outcome of `convert_to_avif` (decode, encode, and write of the output). -/
  convertRes : Except Err Unit
  /-- Outcome of `fs::remove_file` on the original. -/
  deleteRes : Except Err Unit
deriving Repr

/-- Observable effects of one file's pipeline. -/
structure Effects where
  /-- Output files fully written, as (directory, filename) pairs. -/
  wrote : List (String × String)
  /-- Whether `fs::remove_file(image_path)` was invoked. -/
  deleteInvoked : Bool
  /-- Whether the original file was actually deleted. -/
  deletedOriginal : Bool
  /-- Increment applied to the shared `processed` counter. -/
  processedInc : Nat
  /-- Increment applied to the shared `deleted` counter. -/
  deletedInc : Nat
deriving DecidableEq, Repr

/-- The empty effect record. -/
def Effects.none : Effects := ⟨[], false, false, 0, 0⟩

/-- `process_image`: resolve timestamp, format the name, allocate a unique
name, transcode, delete the original, then increment both shared counters.
Every stage failure returns early (the `?` operator) with no further
effects. -/
def process_image (localize : NaiveDT → Option ZonedDT) (env : FileEnv) :
    Except Err Unit × Effects :=
  match env.parent with
  | none => (.error .noParent, Effects.none)
  | some dir =>
    match (get_image_datetime localize env.entries env.meta).1 with
    | .error e => (.error e, Effects.none)
    | .ok datetime =>
      let base_filename := base_filename_of datetime
      match generate_unique_filename (fun n => env.existing.contains n) base_filename with
      | .error e => (.error e, Effects.none)
      | .ok final_filename =>
        match env.convertRes with
        | .error e => (.error e, Effects.none)
        | .ok _ =>
          match env.deleteRes with
          | .error e =>
            (.error e,
             { wrote := [(dir, final_filename)], deleteInvoked := true,
               deletedOriginal := false, processedInc := 0, deletedInc := 0 })
          | .ok _ =>
            (.ok (),
             { wrote := [(dir, final_filename)], deleteInvoked := true,
               deletedOriginal := true, processedInc := 1, deletedInc := 1 })

/-- The aggregate outcome `main` computes after the parallel map. -/
structure RunReport where
  /-- `total`: number of discovered files. -/
  total : Nat
  /-- The per-file results, in discovery order (`par_iter().map(..).collect()`). -/
  results : List (Except Err Unit)
  /-- `errors`: the collected per-file errors, each printed at the end. -/
  printedErrors : List Err
  /-- "成功转换" count: `total - errors.len()`. -/
  successReported : Nat
  /-- "已删除原图" count: the final value of the shared `deleted` counter. -/
  deletedReported : Nat
  /-- Final value of the shared `processed` counter. -/
  processedFinal : Nat
deriving Repr

/-- `main` after discovery: map `process_image` over every file, collect
the error results, sum the counter increments, and report. -/
def main_run (localize : NaiveDT → Option ZonedDT) (envs : List FileEnv) :
    RunReport :=
  let outs := envs.map (process_image localize)
  let results := outs.map (·.1)
  let errors := results.filterMap
    (fun r => match r with | .error e => some e | .ok _ => Option.none)
  { total := envs.length,
    results := results,
    printedErrors := errors,
    successReported := envs.length - errors.length,
    deletedReported := (outs.map (·.2.deletedInc)).sum,
    processedFinal := (outs.map (·.2.processedInc)).sum }

/-! ### Filesystem model for the naming race (§5)

A directory is a list of (filename, content) pairs; `fs::write` truncates
and replaces any existing file of the same name.  Workers processing files
with identical timestamps interleave their allocation (`exists()` probes)
and write steps. -/

/-- `path.exists()` against a directory listing. -/
def diskHas (disk : List (String × Nat)) (name : String) : Bool :=
  disk.any (fun p => p.1 == name)

/-- `fs::write(path, bytes)`: create or truncate-and-replace. -/
def diskWrite (disk : List (String × Nat)) (name : String) (content : Nat) :
    List (String × Nat) :=
  (name, content) :: disk.filter (fun p => ¬ p.1 == name)

/-- One worker step in the interleaved model: allocate a name for worker
`w` (reading the live directory), or write worker `w`'s output. -/
inductive WAction where
  | alloc (w : Nat)
  | write (w : Nat)
deriving DecidableEq, Repr

/-- Interleaved state: the directory and each worker's allocated name. -/
structure ConcState where
  disk : List (String × Nat)
  names : List (Nat × String)
deriving DecidableEq, Repr

/-- Step of the interleaved two-phase model.  All workers process files
resolving to the same timestamp `z`, so they all allocate from the same
base name; worker `w` writes its own encoded bytes, identified as `w`. -/
def concStep (z : ZonedDT) (st : ConcState) : WAction → ConcState
  | .alloc w =>
    match generate_unique_filename (diskHas st.disk) (base_filename_of z) with
    | .ok n => { st with names := (w, n) :: st.names }
    | .error _ => st
  | .write w =>
    match st.names.lookup w with
    | some n => { st with disk := diskWrite st.disk n w }
    | none => st

/-- Run a schedule of worker steps from an initial directory. -/
def concRun (z : ZonedDT) (disk : List (String × Nat)) (acts : List WAction) :
    ConcState :=
  acts.foldl (concStep z) ⟨disk, []⟩

/-- Sequential processing of `n` same-timestamp files (worker `k`, then
`k+1`, …): each file's allocation and write complete before the next file
starts.  Returns the final directory and the allocated names in order.
A file whose allocation fails stops contributing (mirroring the per-file
error path, which writes nothing). -/
def seqRun (z : ZonedDT) : Nat → Nat → List (String × Nat) →
    List (String × Nat) × List String
  | _, 0, disk => (disk, [])
  | k, n + 1, disk =>
    match generate_unique_filename (diskHas disk) (base_filename_of z) with
    | .error _ => (disk, [])
    | .ok name =>
      let out := seqRun z (k + 1) n (diskWrite disk name k)
      (out.1, name :: out.2)

/-- Whether a per-file result is a success (`r.is_ok()` in the summary's
terms): `main` reports `total - errors.len()` as the success count. -/
def isOkB : Except Err Unit → Bool
  | .ok _ => true
  | .error _ => false

/-! ## Supporting lemmas -/

/-- Splitting every result list into successes and collected errors: the
number of collected errors plus the number of successes is the number of
results. -/
theorem errors_plus_oks (rs : List (Except Err Unit)) :
    (rs.filterMap
      (fun r => match r with | .error e => some e | .ok _ => Option.none)).length
      + rs.countP isOkB = rs.length := by
  induction rs with
  | nil => rfl
  | cons r rs ih =>
    cases r with
    | error e =>
      simp [List.filterMap_cons, List.countP_cons, isOkB]
      omega
    | ok u =>
      simp [List.filterMap_cons, List.countP_cons, isOkB]
      omega

/-- If the probe loop has enough fuel to reach counter `k`, every candidate
before `k` is taken, and candidate `k` is free, the loop returns the
candidate of counter `k`. -/
theorem probe_loop_finds (ex : String → Bool) (base : String) :
    ∀ fuel counter k, counter ≤ k → k < counter + fuel →
    (∀ j, counter ≤ j → j < k → ex (suffixed base j) = true) →
    ex (suffixed base k) = false →
    probe_loop ex base counter fuel = .ok (suffixed base k) := by
  intro fuel
  induction fuel with
  | zero => intro counter k h1 h2 _ _; omega
  | succ fuel ih =>
    intro counter k h1 h2 hall hfree
    by_cases hc : counter = k
    · subst hc
      simp [probe_loop, hfree]
    · have htaken : ex (suffixed base counter) = true :=
        hall counter (Nat.le_refl _) (by omega)
      simp only [probe_loop, htaken, if_true]
      exact ih (counter + 1) k (by omega) (by omega)
        (fun j hj1 hj2 => hall j (by omega) hj2) hfree

/-- If every candidate the fuel allows is taken, the probe loop exhausts. -/
theorem probe_loop_exhausts (ex : String → Bool) (base : String) :
    ∀ fuel counter,
    (∀ j, counter ≤ j → j < counter + fuel → ex (suffixed base j) = true) →
    probe_loop ex base counter fuel = .error .namingExhausted := by
  intro fuel
  induction fuel with
  | zero => intro counter _; rfl
  | succ fuel ih =>
    intro counter hall
    have htaken : ex (suffixed base counter) = true :=
      hall counter (Nat.le_refl _) (by omega)
    simp only [probe_loop, htaken, if_true]
    exact ih (counter + 1) (fun j hj1 hj2 => hall j (by omega) (by omega))

/-- `bytesToPixels` on a buffer of exactly `4 * n` bytes yields exactly `n`
pixels and loses no byte: flattening the pixels back restores the buffer. -/
theorem bytesToPixels_exact :
    ∀ (n : Nat) (buf : List Nat), buf.length = 4 * n →
    (bytesToPixels buf).length = n ∧
    (bytesToPixels buf).flatMap (fun p => [p.r, p.g, p.b, p.a]) = buf := by
  intro n
  induction n with
  | zero =>
    intro buf hbuf
    have : buf = [] := List.eq_nil_of_length_eq_zero (by omega)
    subst this
    exact ⟨rfl, rfl⟩
  | succ n ih =>
    intro buf hbuf
    match buf with
    | [] => exfalso; simp only [List.length_nil] at hbuf; omega
    | [_] => exfalso; simp only [List.length_cons, List.length_nil] at hbuf; omega
    | [_, _] => exfalso; simp only [List.length_cons, List.length_nil] at hbuf; omega
    | [_, _, _] => exfalso; simp only [List.length_cons, List.length_nil] at hbuf; omega
    | r :: g :: b :: a :: rest =>
      simp only [List.length_cons] at hbuf
      obtain ⟨hl, hf⟩ := ih rest (by omega)
      refine ⟨?_, ?_⟩
      · simp [bytesToPixels, hl]
      · simp [bytesToPixels, hf]

/-! ## Claims -/

/-- **C9.** Every conversion uses the fixed encoding plan: the decoded
image is first converted to the 4-channel RGBA8 byte-per-component layout,
and the encoder is configured with quality 80 (0–100 scale) and speed 6
(0–10 scale).  The plan is a constant of the program — `convert_to_avif`
builds it without consulting its input — so it is identical for every
input file. -/
theorem convert_plan_fixed :
    convert_plan.layout = .rgba8 ∧
    convert_plan.encoder.quality = some 80 ∧
    convert_plan.encoder.speed = some 6 := by
  exact ⟨rfl, rfl, rfl⟩

/-- **C8.** For a decoded RGBA8 image whose tightly packed buffer has
length exactly `4 × width × height`, the reinterpretation of the byte
buffer as 4-byte RGBA pixel structs is in-bounds (it consumes no more
bytes than the buffer holds) and yields exactly `width × height` pixels;
moreover no byte is skipped or padded: flattening the pixels restores the
buffer. -/
theorem rgba_reinterpret_in_bounds (w h : Nat) (buf : List Nat)
    (hlen : buf.length = 4 * w * h) :
    (bytesToPixels buf).length = w * h ∧
    4 * (bytesToPixels buf).length ≤ buf.length ∧
    (bytesToPixels buf).flatMap (fun p => [p.r, p.g, p.b, p.a]) = buf := by
  obtain ⟨h1, h2⟩ := bytesToPixels_exact (w * h) buf (by rw [hlen, Nat.mul_assoc])
  exact ⟨h1, le_of_eq (by rw [h1, hlen, Nat.mul_assoc]), h2⟩

/-- Witness for C8 at a concrete 1×2 image buffer of 8 bytes. -/
theorem rgba_reinterpret_in_bounds_witness :
    (bytesToPixels [1, 2, 3, 4, 5, 6, 7, 8]).length = 1 * 2 ∧
    4 * (bytesToPixels [1, 2, 3, 4, 5, 6, 7, 8]).length ≤ 8 ∧
    (bytesToPixels [1, 2, 3, 4, 5, 6, 7, 8]).flatMap
      (fun p => [p.r, p.g, p.b, p.a]) = [1, 2, 3, 4, 5, 6, 7, 8] := by
  have := rgba_reinterpret_in_bounds 1 2 [1, 2, 3, 4, 5, 6, 7, 8] (by decide)
  simpa using this

/-- **C4.** `generate_unique_filename`: (a) when no entry with the base
name exists in the directory, it returns the base name; (b) otherwise it
probes suffixed candidates with counters 1, 2, 3, … in increasing order
and returns the first candidate not present; (c) when all 10000 suffixed
attempts are taken, it fails with the naming-exhausted error. -/
theorem generate_unique_filename_spec (ex : String → Bool) (base : String) :
    (ex base = false → generate_unique_filename ex base = .ok base) ∧
    (∀ k, ex base = true → 1 ≤ k → k ≤ 10000 →
      (∀ j, 1 ≤ j → j < k → ex (suffixed base j) = true) →
      ex (suffixed base k) = false →
      generate_unique_filename ex base = .ok (suffixed base k)) ∧
    (ex base = true →
      (∀ j, 1 ≤ j → j ≤ 10000 → ex (suffixed base j) = true) →
      generate_unique_filename ex base = .error .namingExhausted) := by
  refine ⟨?_, ?_, ?_⟩
  · intro hfree
    simp [generate_unique_filename, hfree]
  · intro k hbase h1 h2 hall hfree
    simp only [generate_unique_filename, hbase, if_true]
    exact probe_loop_finds ex base 10000 1 k h1 (by omega)
      (fun j hj1 hj2 => hall j hj1 hj2) hfree
  · intro hbase hall
    simp only [generate_unique_filename, hbase, if_true]
    exact probe_loop_exhausts ex base 10000 1
      (fun j hj1 hj2 => hall j hj1 (by omega))

/-- Witness for C4: in a directory already holding `X.avif` and `X(1).avif`
the allocator returns the first free suffixed candidate `X(2).avif`. -/
theorem generate_unique_filename_spec_witness :
    generate_unique_filename
      (fun n => n == "X.avif" || n == "X(1).avif") "X.avif" =
      .ok "X(2).avif" := by
  have h := (generate_unique_filename_spec
    (fun n => n == "X.avif" || n == "X(1).avif") "X.avif").2.1 2
    (by decide) (by omega) (by omega)
    (fun j hj1 hj2 => by
      have hj : j = 1 := by omega
      subst hj
      decide)
    (by decide)
  simpa using h

/-- The entry loop skips every leading entry that is not a
`DateTimeOriginal` entry with a parseable value. -/
theorem findExifDatetime_skip (localize : NaiveDT → Option ZonedDT) :
    ∀ (pre rest : List ExifEntry),
    (∀ e2 ∈ pre, e2.tag ≠ .dateTimeOriginal ∨
      parse_exif_datetime e2.value_more_readable = none) →
    findExifDatetime localize (pre ++ rest) = findExifDatetime localize rest := by
  intro pre
  induction pre with
  | nil => intro rest _; rfl
  | cons e2 pre ih =>
    intro rest hpre
    rcases hpre e2 (List.mem_cons_self e2 pre) with htag | hparse
    · simp only [List.cons_append, findExifDatetime, if_neg htag]
      exact ih rest (fun e3 he3 => hpre e3 (List.mem_cons_of_mem e2 he3))
    · by_cases htag : e2.tag = .dateTimeOriginal
      · simp only [List.cons_append, findExifDatetime, if_pos htag, hparse]
        exact ih rest (fun e3 he3 => hpre e3 (List.mem_cons_of_mem e2 he3))
      · simp only [List.cons_append, findExifDatetime, if_neg htag]
        exact ih rest (fun e3 he3 => hpre e3 (List.mem_cons_of_mem e2 he3))

/-- **C1.** The original is deleted iff the output was fully written: the
pipeline invokes `fs::remove_file` on the original exactly when the
transcode-and-write step has returned success (so exactly when a fully
written output exists), and the original is actually deleted exactly when
the whole per-file pipeline succeeds — any stage failure (timestamp
resolution, name allocation, decode, encode, or write) leaves the original
in place. -/
theorem process_image_delete_iff_written (localize : NaiveDT → Option ZonedDT)
    (env : FileEnv) :
    ((process_image localize env).2.deleteInvoked = true ↔
      (process_image localize env).2.wrote ≠ []) ∧
    ((process_image localize env).2.deleteInvoked = true →
      env.convertRes = .ok ()) ∧
    ((process_image localize env).2.deletedOriginal = true ↔
      (process_image localize env).1 = .ok ()) := by
  cases hp : env.parent with
  | none => simp only [process_image, hp, Effects.none]; simp
  | some dir =>
    cases hdt : (get_image_datetime localize env.entries env.meta).1 with
    | error e => simp only [process_image, hp, hdt, Effects.none]; simp
    | ok dt =>
      cases hnm : generate_unique_filename (fun n => env.existing.contains n)
          (base_filename_of dt) with
      | error e => simp only [process_image, hp, hdt, hnm, Effects.none]; simp
      | ok nm =>
        cases hcv : env.convertRes with
        | error e => simp only [process_image, hp, hdt, hnm, hcv, Effects.none]; simp
        | ok u =>
          cases hdl : env.deleteRes with
          | error e => simp only [process_image, hp, hdt, hnm, hcv, hdl]; simp
          | ok u2 => simp only [process_image, hp, hdt, hnm, hcv, hdl]; simp

/-- Witness for C1 at a fully successful concrete environment: delete is
invoked, the output was written, and the original was deleted. -/
theorem process_image_delete_iff_written_witness :
    let env : FileEnv :=
      { parent := some "d", entries := Option.none,
        meta := some ⟨some ⟨⟨2023, 1, 1, 0, 0, 0⟩⟩, Option.none⟩,
        existing := [], convertRes := .ok (), deleteRes := .ok () }
    (process_image (fun n => some ⟨n⟩) env).2.deleteInvoked = true ∧
    (process_image (fun n => some ⟨n⟩) env).2.wrote ≠ [] ∧
    (process_image (fun n => some ⟨n⟩) env).2.deletedOriginal = true := by
  intro env
  refine ⟨by decide, ?_, by decide⟩
  exact ((process_image_delete_iff_written (fun n => some ⟨n⟩) env).1).mp (by decide)

/-- **C2.** When the EXIF entries contain a `DateTimeOriginal` field whose
value parses under the fixed pattern `YYYY:MM:DD HH:MM:SS`, every earlier
entry being either not `DateTimeOriginal` or unparseable, and the
local-time interpretation of the parsed value is unambiguous, the resolved
timestamp is exactly the parsed value zoned to local time, and the
filesystem metadata is never consulted (the flag is `false` whatever
`meta` holds). -/
theorem exif_timestamp_authoritative (localize : NaiveDT → Option ZonedDT)
    (pre post : List ExifEntry) (e : ExifEntry) (meta : Option FsMeta)
    (ndt : NaiveDT) (z : ZonedDT)
    (hpre : ∀ e2 ∈ pre, e2.tag ≠ .dateTimeOriginal ∨
      parse_exif_datetime e2.value_more_readable = none)
    (htag : e.tag = .dateTimeOriginal)
    (hparse : parse_exif_datetime e.value_more_readable = some ndt)
    (hzone : localize ndt = some z) :
    get_image_datetime localize (some (pre ++ e :: post)) meta = (.ok z, false) := by
  have hfind : findExifDatetime localize (pre ++ e :: post) = .ok z := by
    rw [findExifDatetime_skip localize pre (e :: post) hpre]
    simp [findExifDatetime, htag, hparse, hzone]
  simp [get_image_datetime, get_exif_datetime, hfind]

/-- Witness for C2: a file whose EXIF holds `DateTimeOriginal =
2024:03:15 14:22:10` after an unrelated entry resolves to that instant and
ignores the (present) filesystem times. -/
theorem exif_timestamp_authoritative_witness :
    get_image_datetime (fun n => some ⟨n⟩)
      (some [⟨.otherTag 0, "x"⟩, ⟨.dateTimeOriginal, "2024:03:15 14:22:10"⟩])
      (some ⟨some ⟨⟨1999, 1, 1, 0, 0, 0⟩⟩, some ⟨⟨1998, 1, 1, 0, 0, 0⟩⟩⟩) =
      (.ok ⟨⟨2024, 3, 15, 14, 22, 10⟩⟩, false) := by
  exact exif_timestamp_authoritative (fun n => some ⟨n⟩)
    [⟨.otherTag 0, "x"⟩] [] ⟨.dateTimeOriginal, "2024:03:15 14:22:10"⟩
    (some ⟨some ⟨⟨1999, 1, 1, 0, 0, 0⟩⟩, some ⟨⟨1998, 1, 1, 0, 0, 0⟩⟩⟩)
    ⟨2024, 3, 15, 14, 22, 10⟩ ⟨⟨2024, 3, 15, 14, 22, 10⟩⟩
    (by decide) (by decide) (by decide) rfl

/-- **C3.** Whenever the EXIF step fails for any reason, the resolver
consults the filesystem: it returns the creation time when available,
otherwise the modification time; when the metadata read fails or neither
time is available, timestamp resolution is a hard error for that file. -/
theorem fs_fallback (localize : NaiveDT → Option ZonedDT)
    (entries : Option (List ExifEntry)) (meta : Option FsMeta) (e : Err)
    (hexif : get_exif_datetime localize entries = .error e) :
    (meta = Option.none →
      get_image_datetime localize entries meta = (.error .metadataUnavailable, true)) ∧
    (∀ m t, meta = some m → m.created = some t →
      get_image_datetime localize entries meta = (.ok t, true)) ∧
    (∀ m t, meta = some m → m.created = Option.none → m.modified = some t →
      get_image_datetime localize entries meta = (.ok t, true)) ∧
    (∀ m, meta = some m → m.created = Option.none → m.modified = Option.none →
      get_image_datetime localize entries meta = (.error .timestampUnavailable, true)) := by
  refine ⟨?_, ?_, ?_, ?_⟩
  · intro hm
    simp [get_image_datetime, hexif, hm]
  · intro m t hm hc
    simp [get_image_datetime, hexif, hm, hc]
  · intro m t hm hc hmod
    simp [get_image_datetime, hexif, hm, hc, hmod]
  · intro m hm hc hmod
    simp [get_image_datetime, hexif, hm, hc, hmod]

/-- Witness for C3: a file with no readable EXIF container and only a
modification time resolves to that modification time. -/
theorem fs_fallback_witness :
    get_image_datetime (fun n => some ⟨n⟩) Option.none
      (some ⟨Option.none, some ⟨⟨2023, 1, 1, 0, 0, 0⟩⟩⟩) =
      (.ok ⟨⟨2023, 1, 1, 0, 0, 0⟩⟩, true) := by
  exact (fs_fallback (fun n => some ⟨n⟩) Option.none
    (some ⟨Option.none, some ⟨⟨2023, 1, 1, 0, 0, 0⟩⟩⟩) .exifUnavailable rfl).2.2.1
    ⟨Option.none, some ⟨⟨2023, 1, 1, 0, 0, 0⟩⟩⟩ ⟨⟨2023, 1, 1, 0, 0, 0⟩⟩ rfl rfl rfl

/-- **C6.** For every successfully converted file, exactly one output file
is written, in the same parent directory as the original; its name is the
allocated name — the formatted capture timestamp with `.avif`, or that
plus a `(n)` collision suffix — and in particular the base name when no
collision exists.  The concrete scenario: metadata date
`2024:03:15 14:22:10` parses and formats to `2024年03月15日 14-22-10.avif`
with zero-padded fields. -/
theorem output_written_in_parent_dir (localize : NaiveDT → Option ZonedDT)
    (env : FileEnv) (dir : String) (dt : ZonedDT)
    (h1 : env.parent = some dir)
    (h2 : (get_image_datetime localize env.entries env.meta).1 = .ok dt)
    (h3 : env.convertRes = .ok ()) :
    (∀ nm, generate_unique_filename (fun n => env.existing.contains n)
        (base_filename_of dt) = .ok nm →
      (process_image localize env).2.wrote = [(dir, nm)]) ∧
    (env.existing.contains (base_filename_of dt) = false →
      (process_image localize env).2.wrote = [(dir, base_filename_of dt)]) ∧
    (parse_exif_datetime "2024:03:15 14:22:10" = some ⟨2024, 3, 15, 14, 22, 10⟩ ∧
      base_filename_of ⟨⟨2024, 3, 15, 14, 22, 10⟩⟩ = "2024年03月15日 14-22-10.avif") ∧
    suffixed (base_filename_of ⟨⟨2024, 3, 15, 14, 22, 10⟩⟩) 1 =
      "2024年03月15日 14-22-10(1).avif" := by
  have hwrote : ∀ nm, generate_unique_filename (fun n => env.existing.contains n)
      (base_filename_of dt) = .ok nm →
      (process_image localize env).2.wrote = [(dir, nm)] := by
    intro nm hnm
    cases hdl : env.deleteRes with
    | error e => simp only [process_image, h1, h2, h3, hnm, hdl]
    | ok u => simp only [process_image, h1, h2, h3, hnm, hdl]
  refine ⟨hwrote, ?_, ⟨by decide, by decide⟩, by decide⟩
  intro hfree
  refine hwrote (base_filename_of dt) ?_
  simp only [generate_unique_filename, hfree]
  simp

/-- Witness for C6: a concrete collision-free environment writes exactly
the base name into the parent directory. -/
theorem output_written_in_parent_dir_witness :
    let env : FileEnv :=
      { parent := some "d",
        entries := some [⟨.dateTimeOriginal, "2024:03:15 14:22:10"⟩],
        meta := Option.none, existing := [],
        convertRes := .ok (), deleteRes := .ok () }
    (process_image (fun n => some ⟨n⟩) env).2.wrote =
      [("d", "2024年03月15日 14-22-10.avif")] := by
  intro env
  exact (output_written_in_parent_dir (fun n => some ⟨n⟩) env "d"
    ⟨⟨2024, 3, 15, 14, 22, 10⟩⟩ rfl rfl rfl).2.1 rfl

/-- Per-file counter discipline: the two counter increments are equal,
they are 1 exactly when the whole pipeline (delete included) succeeded and
0 otherwise, and a successful pipeline implies the delete succeeded. -/
theorem process_image_counters (localize : NaiveDT → Option ZonedDT)
    (env : FileEnv) :
    ((process_image localize env).2.processedInc =
      (process_image localize env).2.deletedInc) ∧
    ((process_image localize env).2.processedInc = 1 ↔
      (process_image localize env).1 = .ok ()) ∧
    ((process_image localize env).2.processedInc = 1 ∨
      (process_image localize env).2.processedInc = 0) ∧
    ((process_image localize env).1 = .ok () → env.deleteRes = .ok ()) := by
  cases hp : env.parent with
  | none => simp only [process_image, hp, Effects.none]; simp
  | some dir =>
    cases hdt : (get_image_datetime localize env.entries env.meta).1 with
    | error e => simp only [process_image, hp, hdt, Effects.none]; simp
    | ok dt =>
      cases hnm : generate_unique_filename (fun n => env.existing.contains n)
          (base_filename_of dt) with
      | error e => simp only [process_image, hp, hdt, hnm, Effects.none]; simp
      | ok nm =>
        cases hcv : env.convertRes with
        | error e => simp only [process_image, hp, hdt, hnm, hcv, Effects.none]; simp
        | ok u =>
          cases hdl : env.deleteRes with
          | error e => simp only [process_image, hp, hdt, hnm, hcv, hdl]; simp
          | ok u2 => simp only [process_image, hp, hdt, hnm, hcv, hdl]; simp

/-- The per-file counter increments, summed over the run, agree. -/
theorem sum_incs_eq (localize : NaiveDT → Option ZonedDT) :
    ∀ envs : List FileEnv,
    (envs.map (fun env => (process_image localize env).2.processedInc)).sum =
    (envs.map (fun env => (process_image localize env).2.deletedInc)).sum := by
  intro envs
  induction envs with
  | nil => rfl
  | cons env envs ih =>
    simp only [List.map_cons, List.sum_cons, ih,
      (process_image_counters localize env).1]

/-- **C7.** The orchestrator attempts every discovered file and never
stops early: the result list has one entry per file, each entry is the
outcome of that file's own pipeline (a function of that file's inputs
alone, so no file's failure alters another's processing), the reported
success count — `total` minus the number of collected errors — equals the
number of files whose pipeline succeeded, and the printed errors are
exactly the collected failures (their count plus the successes exhausts
the discovered files). -/
theorem orchestrator_best_effort (localize : NaiveDT → Option ZonedDT)
    (envs : List FileEnv) :
    (main_run localize envs).results.length = envs.length ∧
    (∀ i : Nat, (main_run localize envs).results[i]? =
      (envs[i]?).map (fun env => (process_image localize env).1)) ∧
    (main_run localize envs).successReported =
      (main_run localize envs).results.countP isOkB ∧
    (main_run localize envs).printedErrors.length
      + (main_run localize envs).results.countP isOkB = envs.length := by
  have hres : (main_run localize envs).results =
      envs.map (fun env => (process_image localize env).1) := by
    simp [main_run]
  have herr : (main_run localize envs).printedErrors =
      (main_run localize envs).results.filterMap
        (fun r => match r with | .error e => some e | .ok _ => Option.none) := by
    simp [main_run]
  have hlen : (main_run localize envs).results.length = envs.length := by
    rw [hres, List.length_map]
  have hsplit := errors_plus_oks (main_run localize envs).results
  rw [← herr] at hsplit
  rw [hlen] at hsplit
  refine ⟨hlen, ?_, ?_, hsplit⟩
  · intro i
    rw [hres]
    exact List.getElem?_map _ _ _
  · have hrep : (main_run localize envs).successReported =
        envs.length - (main_run localize envs).printedErrors.length := by
      simp [main_run]
    omega

/-- **C10.** The two shared counters stay in lockstep: per file the
`processed` and `deleted` increments are equal, they are applied exactly
once (value 1) precisely when the file's whole pipeline — including the
delete of the original — succeeded, a file whose delete fails increments
neither counter and ends in error, and over a whole run the final values
of the two counters are equal. -/
theorem counters_in_lockstep (localize : NaiveDT → Option ZonedDT)
    (env : FileEnv) (envs : List FileEnv) :
    ((process_image localize env).2.processedInc =
      (process_image localize env).2.deletedInc) ∧
    ((process_image localize env).2.processedInc = 1 ↔
      (process_image localize env).1 = .ok ()) ∧
    ((process_image localize env).2.processedInc = 1 ∨
      (process_image localize env).2.processedInc = 0) ∧
    (∀ e, env.deleteRes = .error e →
      (process_image localize env).2.processedInc = 0 ∧
      (process_image localize env).2.deletedInc = 0 ∧
      (process_image localize env).1 ≠ .ok ()) ∧
    (main_run localize envs).processedFinal =
      (main_run localize envs).deletedReported := by
  obtain ⟨h1, h2, h3, h4⟩ := process_image_counters localize env
  refine ⟨h1, h2, h3, ?_, ?_⟩
  · intro e hdl
    have hnok : (process_image localize env).1 ≠ .ok () := by
      intro hok
      rw [h4 hok] at hdl
      exact Except.noConfusion hdl
    have hz : (process_image localize env).2.processedInc = 0 := by
      rcases h3 with hone | hzero
      · exact absurd (h2.mp hone) hnok
      · exact hzero
    exact ⟨hz, h1 ▸ hz, hnok⟩
  · simp only [main_run]
    simpa [List.map_map, Function.comp] using sum_incs_eq localize envs

/-- Witness for C10 at a file whose output was written but whose original
could not be deleted: neither counter moves and the file ends in error. -/
theorem counters_in_lockstep_witness :
    let env : FileEnv :=
      { parent := some "d", entries := Option.none,
        meta := some ⟨some ⟨⟨2023, 1, 1, 0, 0, 0⟩⟩, Option.none⟩,
        existing := [], convertRes := .ok (),
        deleteRes := .error .deleteFailure }
    (process_image (fun n => some ⟨n⟩) env).2.processedInc = 0 ∧
    (process_image (fun n => some ⟨n⟩) env).2.deletedInc = 0 ∧
    (process_image (fun n => some ⟨n⟩) env).1 ≠ .ok () := by
  intro env
  exact (counters_in_lockstep (fun n => some ⟨n⟩) env []).2.2.2.1
    .deleteFailure rfl

/-- A name returned by the probe loop is free at the moment it is probed. -/
theorem probe_loop_free (ex : String → Bool) (base : String) :
    ∀ fuel counter n, probe_loop ex base counter fuel = .ok n → ex n = false := by
  intro fuel
  induction fuel with
  | zero => intro counter n h; exact Except.noConfusion h
  | succ fuel ih =>
    intro counter n h
    cases hex : ex (suffixed base counter) with
    | true =>
      simp only [probe_loop, hex, if_true] at h
      exact ih _ _ h
    | false =>
      simp only [probe_loop, hex, Bool.false_eq_true, if_false] at h
      cases h
      exact hex

/-- A name returned by the allocator does not exist in the directory at
the moment of its probe. -/
theorem generate_unique_filename_free (ex : String → Bool) (base n : String)
    (h : generate_unique_filename ex base = .ok n) : ex n = false := by
  by_cases hex : ex base = true
  · simp only [generate_unique_filename, hex, if_true] at h
    exact probe_loop_free ex base 10000 1 n h
  · have hexf : ex base = false := by
      cases hb : ex base with
      | true => exact absurd hb hex
      | false => rfl
    simp only [generate_unique_filename, hexf, Bool.false_eq_true, if_false] at h
    cases h
    exact hexf

/-- An entry on disk makes its name exist. -/
theorem diskHas_of_mem (d : List (String × Nat)) (p : String × Nat)
    (hp : p ∈ d) : diskHas d p.1 = true := by
  simp only [diskHas, List.any_eq_true]
  exact ⟨p, hp, by simp⟩

/-- Writing one file keeps every entry with a different name. -/
theorem mem_diskWrite_of_mem (d : List (String × Nat)) (p : String × Nat)
    (name : String) (c : Nat) (hp : p ∈ d) (hne : p.1 ≠ name) :
    p ∈ diskWrite d name c := by
  simp only [diskWrite, List.mem_cons]
  right
  rw [List.mem_filter]
  exact ⟨hp, by simp [hne]⟩

/-- The freshly written entry is on disk. -/
theorem self_mem_diskWrite (d : List (String × Nat)) (name : String) (c : Nat) :
    (name, c) ∈ diskWrite d name c :=
  List.mem_cons_self _ _

/-- Writing never removes a name from the directory listing. -/
theorem diskHas_diskWrite_of_diskHas (d : List (String × Nat))
    (name m : String) (c : Nat) (h : diskHas d m = true) :
    diskHas (diskWrite d name c) m = true := by
  by_cases hm : m = name
  · subst hm
    simp [diskHas, diskWrite]
  · simp only [diskHas, List.any_eq_true] at h
    obtain ⟨p, hp, hpm⟩ := h
    have hpm2 : p.1 = m := by simpa using hpm
    have hmem : p ∈ diskWrite d name c :=
      mem_diskWrite_of_mem d p name c hp (by rw [hpm2]; exact hm)
    have h2 := diskHas_of_mem _ p hmem
    rw [hpm2] at h2
    exact h2

/-- The name just written exists. -/
theorem diskHas_diskWrite_self (d : List (String × Nat)) (name : String) (c : Nat) :
    diskHas (diskWrite d name c) name = true := by
  simp [diskHas, diskWrite]

/-- Entries on disk before a sequential run are still on disk after it:
later files only ever write to names that are free when written. -/
theorem seqRun_preserves (z : ZonedDT) :
    ∀ (n k : Nat) (d : List (String × Nat)) (p : String × Nat),
    p ∈ d → p ∈ (seqRun z k n d).1 := by
  intro n
  induction n with
  | zero => intro k d p hp; exact hp
  | succ n ih =>
    intro k d p hp
    cases halloc : generate_unique_filename (diskHas d) (base_filename_of z) with
    | error e => simp only [seqRun, halloc]; exact hp
    | ok name =>
      have hfree : diskHas d name = false :=
        generate_unique_filename_free (diskHas d) (base_filename_of z) name halloc
      have hne : p.1 ≠ name := by
        intro hmm
        rw [← hmm] at hfree
        rw [diskHas_of_mem d p hp] at hfree
        exact Bool.noConfusion hfree
      simp only [seqRun, halloc]
      exact ih (k + 1) (diskWrite d name k) p
        (mem_diskWrite_of_mem d p name k hp hne)

/-- A name already existing in the directory is never allocated by a
sequential run. -/
theorem seqRun_avoids_existing (z : ZonedDT) :
    ∀ (n k : Nat) (d : List (String × Nat)) (m : String),
    diskHas d m = true → m ∉ (seqRun z k n d).2 := by
  intro n
  induction n with
  | zero => intro k d m _ hmem; exact List.not_mem_nil m hmem
  | succ n ih =>
    intro k d m hm hmem
    cases halloc : generate_unique_filename (diskHas d) (base_filename_of z) with
    | error e =>
      simp only [seqRun, halloc] at hmem
      exact List.not_mem_nil m hmem
    | ok name =>
      have hfree : diskHas d name = false :=
        generate_unique_filename_free (diskHas d) (base_filename_of z) name halloc
      simp only [seqRun, halloc, List.mem_cons] at hmem
      rcases hmem with hmem | hmem
      · rw [hmem] at hm
        rw [hm] at hfree
        exact Bool.noConfusion hfree
      · exact ih (k + 1) (diskWrite d name k) m
          (diskHas_diskWrite_of_diskHas d name m k hm) hmem

/-- The names a sequential run allocates are pairwise distinct. -/
theorem seqRun_nodup (z : ZonedDT) :
    ∀ (n k : Nat) (d : List (String × Nat)), (seqRun z k n d).2.Nodup := by
  intro n
  induction n with
  | zero => intro k d; exact List.nodup_nil
  | succ n ih =>
    intro k d
    cases halloc : generate_unique_filename (diskHas d) (base_filename_of z) with
    | error e => simp only [seqRun, halloc]; exact List.nodup_nil
    | ok name =>
      simp only [seqRun, halloc]
      refine List.Nodup.cons ?_ (ih (k + 1) (diskWrite d name k))
      exact seqRun_avoids_existing z n (k + 1) (diskWrite d name k) name
        (diskHas_diskWrite_self d name k)

/-- After a sequential run, the `i`-th allocated name holds the `i`-th
worker's own output bytes on the final disk: nothing was overwritten. -/
theorem seqRun_contents (z : ZonedDT) :
    ∀ (n k : Nat) (d : List (String × Nat)) (i : Nat) (nm : String),
    ((seqRun z k n d).2)[i]? = some nm → (nm, k + i) ∈ (seqRun z k n d).1 := by
  intro n
  induction n with
  | zero =>
    intro k d i nm h
    exact absurd h (by simp [seqRun])
  | succ n ih =>
    intro k d i nm h
    cases halloc : generate_unique_filename (diskHas d) (base_filename_of z) with
    | error e =>
      rw [show (seqRun z k (n + 1) d) = (d, []) by simp only [seqRun, halloc]] at h
      exact absurd h (by simp)
    | ok name =>
      have hrun : seqRun z k (n + 1) d =
          ((seqRun z (k + 1) n (diskWrite d name k)).1,
           name :: (seqRun z (k + 1) n (diskWrite d name k)).2) := by
        simp only [seqRun, halloc]
      rw [hrun] at h ⊢
      cases i with
      | zero =>
        simp only [List.getElem?_cons_zero, Option.some.injEq] at h
        rw [← h]
        exact seqRun_preserves z n (k + 1) (diskWrite d name k) (name, k + 0)
          (self_mem_diskWrite d name (k + 0))
      | succ i =>
        simp only [List.getElem?_cons_succ] at h
        have heq : k + (i + 1) = (k + 1) + i := by omega
        rw [heq]
        exact ih (k + 1) (diskWrite d name k) i nm h

/-- **C5, counterexample.** Two workers whose files resolve to the same
timestamp, interleaved as allocate/allocate/write/write, both pass the
"name is free" check and allocate the identical base name; the second
write silently overwrites the first, leaving a single file on disk —
refuting the claim that concurrent processing yields distinct names and
coexisting outputs. -/
theorem naming_race_counterexample :
    let st := concRun ⟨⟨2023, 1, 1, 0, 0, 0⟩⟩ []
      [.alloc 1, .alloc 2, .write 1, .write 2]
    st.names.lookup 1 = some "2023年01月01日 00-00-00.avif" ∧
    st.names.lookup 2 = some "2023年01月01日 00-00-00.avif" ∧
    st.disk = [("2023年01月01日 00-00-00.avif", 2)] ∧
    ¬(st.names.lookup 1 ≠ st.names.lookup 2 ∧ 2 ≤ st.disk.length) := by
  decide

/-- **C5 (amended).** For N ≥ 2 files resolving to the identical capture
timestamp in the same directory and processed sequentially — each file's
allocation and write completing before the next begins — the allocator
yields N pairwise-distinct output filenames and all N output files coexist
on disk afterward, each still holding its own worker's bytes (no output
overwrites another); in the concrete three-file run from an empty
directory the names are the base name, then `(1)`, then `(2)`, in
increasing order.  (Under concurrent interleaving the property fails; see
the counterexample.) -/
theorem seq_processing_distinct_names (z : ZonedDT) (n k : Nat)
    (disk : List (String × Nat)) :
    (seqRun z k n disk).2.Nodup ∧
    (∀ (i : Nat) (nm : String), ((seqRun z k n disk).2)[i]? = some nm →
      (nm, k + i) ∈ (seqRun z k n disk).1) ∧
    (seqRun ⟨⟨2023, 1, 1, 0, 0, 0⟩⟩ 0 3 []).2 =
      ["2023年01月01日 00-00-00.avif", "2023年01月01日 00-00-00(1).avif",
       "2023年01月01日 00-00-00(2).avif"] :=
  ⟨seqRun_nodup z n k disk, seqRun_contents z n k disk, by decide⟩

/-- Witness for the amended C5: in a sequential two-file run from an empty
directory, the second worker's output is on the final disk under its
suffixed name with its own bytes. -/
theorem seq_processing_distinct_names_witness :
    ("2023年01月01日 00-00-00(1).avif", 0 + 1) ∈
      (seqRun ⟨⟨2023, 1, 1, 0, 0, 0⟩⟩ 0 2 []).1 :=
  (seq_processing_distinct_names ⟨⟨2023, 1, 1, 0, 0, 0⟩⟩ 2 0 []).2.1 1
    "2023年01月01日 00-00-00(1).avif" (by decide)

end ChronoAvif
